import Mathlib

/-!
Verification of the AtomDesignSystem token build pipeline
(`scripts/tokens-to-scss.js` DTCG converter and `scripts/build.js` module
compiler) against its specification.

The JavaScript value universe is shallowly embedded as `JsVal`.  JS numbers
are represented by their decimal string rendering (the result of JS
`String(n)`): the scripts never perform arithmetic on token numbers, they
only stringify them, so this representation is exact for every behavior
modelled here.  `vUndefined` is the JS `undefined` produced by reading an absent
property; values parsed from token JSON files never contain it.  Fallible
code paths (property access on `null`/`undefined`, which throws a
`TypeError`) are modelled with `Except Unit`.
-/

inductive JsVal where
  | vUndefined
  | vNull
  | vBool (b : Bool)
  | vNum (numRepr : String)
  | vStr (s : String)
  | vArr (elems : List JsVal)
  | vObj (fields : List (String × JsVal))
deriving Repr

/-- JS truthiness.  Falsy values: `undefined`, `null`, `false`, `0`, `-0`,
`NaN`, `""`; every array and object is truthy. -/
def jsTruthy : JsVal → Bool
  | .vUndefined => false
  | .vNull => false
  | .vBool b => b
  | .vNum n => !(n == "0" || n == "-0" || n == "NaN")
  | .vStr s => !(s == "")
  | .vArr _ => true
  | .vObj _ => true

/-- Returns `true` exactly on the JS `undefined` value. -/
def isUndefined : JsVal → Bool
  | .vUndefined => true
  | _ => false

/-- Returns `true` exactly on the JS `null` value. -/
def isNull : JsVal → Bool
  | .vNull => true
  | _ => false

/-- JS `===` comparison of an arbitrary value with a string literal, as in
`type === 'cubicBezier'`: true iff the value is that exact string. -/
def typeIs (v : JsVal) (s : String) : Bool :=
  match v with
  | .vStr t => t == s
  | _ => false

mutual

/-- JS `String(v)` / template-literal stringification.  Arrays stringify as
their elements joined with `","` (with `null`/`undefined` elements rendered
as the empty string), plain objects as `"[object Object]"`. -/
def jsToString : JsVal → String
  | .vUndefined => "undefined"
  | .vNull => "null"
  | .vBool b => if b then "true" else "false"
  | .vNum n => n
  | .vStr s => s
  | .vArr xs => String.intercalate "," (jsElems xs)
  | .vObj _ => "[object Object]"

/-- Element renderings used by JS `Array.prototype.join`: each element is
stringified, except `null` and `undefined` which render as `""`. -/
def jsElems : List JsVal → List String
  | [] => []
  | v :: r =>
    (match v with
     | .vNull => ""
     | .vUndefined => ""
     | w => jsToString w) :: jsElems r

end

/-- JSON quoting of a string: surrounding double quotes, escaping `\` and
`"` (escaping of control characters is not modelled; no token key or value
in the modelled behaviors contains them). -/
def jsonQuote (s : String) : String :=
  "\"" ++ String.mk (s.data.flatMap (fun c =>
    if c == '"' then ['\\', '"'] else if c == '\\' then ['\\', '\\'] else [c])) ++ "\""

mutual

/-- JS `JSON.stringify`.  `none` is the JS `undefined` result (top-level
`undefined`); object fields whose value serializes to `undefined` are
dropped, array elements that do so render as `"null"`. -/
def jsonStringify : JsVal → Option String
  | .vUndefined => none
  | .vNull => some "null"
  | .vBool b => some (if b then "true" else "false")
  | .vNum n => some n
  | .vStr s => some (jsonQuote s)
  | .vArr xs => some ("[" ++ String.intercalate "," (jsonElems xs) ++ "]")
  | .vObj fs => some ("\x7b" ++ String.intercalate "," (jsonFields fs) ++ "\x7d")

def jsonElems : List JsVal → List String
  | [] => []
  | v :: r => ((jsonStringify v).getD "null") :: jsonElems r

def jsonFields : List (String × JsVal) → List String
  | [] => []
  | (k, v) :: r =>
    match jsonStringify v with
    | some s => (jsonQuote k ++ ":" ++ s) :: jsonFields r
    | none => jsonFields r

end

/-- JS property read `v.k`.  Reading an absent property, or any property of
a primitive, yields `undefined`.  (Reading a property of `null`/`undefined`
throws; callers below model that throw at their own call sites and never
apply `getProp` to them meaningfully.) -/
def getProp (v : JsVal) (k : String) : JsVal :=
  match v with
  | .vObj fs =>
    match fs.lookup k with
    | some x => x
    | none => .vUndefined
  | _ => .vUndefined

/-- Embedding of `extractValue(token)` from tokens-to-scss.js: the DTCG `$value` field if
present, else the legacy `value` field, else `null`. -/
def extractValue (token : JsVal) : JsVal :=
  if !isUndefined (getProp token "$value") then getProp token "$value"
  else if !isUndefined (getProp token "value") then getProp token "value"
  else .vNull

/-- Embedding of `dimensionToCss(dim)`: a string passes through; a truthy object with a
defined `value` and a truthy `unit` yields the template `${dim.value}${dim.unit}`;
anything else falls back to `String(dim)`. -/
def dimensionToCss (dim : JsVal) : String :=
  match dim with
  | .vStr s => s
  | .vObj _ | .vArr _ =>
    if !isUndefined (getProp dim "value") && jsTruthy (getProp dim "unit") then
      jsToString (getProp dim "value") ++ jsToString (getProp dim "unit")
    else jsToString dim
  | d => jsToString d

/-- Embedding of `cubicBezierToCss(arr)`: an array of length exactly 4 renders as
`cubic-bezier(` + `arr.join(', ')` + `)`; anything else as `String(arr)`. -/
def cubicBezierToCss (arr : JsVal) : String :=
  match arr with
  | .vArr xs =>
    if xs.length = 4 then "cubic-bezier(" ++ String.intercalate ", " (jsElems xs) ++ ")"
    else jsToString (.vArr xs)
  | a => jsToString a

/-- Embedding of `singleShadowToCss(s)`: the five space-joined fields
`offsetX offsetY blur spread color`, the first four dimension-converted.
Property access on `null`/`undefined` throws (`.error`). -/
def singleShadowToCss (s : JsVal) : Except Unit String :=
  match s with
  | .vNull => .error ()
  | .vUndefined => .error ()
  | v =>
    .ok (dimensionToCss (getProp v "offsetX") ++ " " ++ dimensionToCss (getProp v "offsetY")
      ++ " " ++ dimensionToCss (getProp v "blur") ++ " " ++ dimensionToCss (getProp v "spread")
      ++ " " ++ jsToString (getProp v "color"))

/-- Embedding of `shadowToCss(val)`: an array maps each element through
`singleShadowToCss` and joins with `", "`; anything else is converted as a
single shadow. -/
def shadowToCss (val : JsVal) : Except Unit String :=
  match val with
  | .vArr xs => (xs.mapM singleShadowToCss).map (String.intercalate ", ")
  | v => singleShadowToCss v

/-- Embedding of `valueToCss(val, type)` from tokens-to-scss.js.  `.ok none` is the JS
`null` return (only for `null`/`undefined` input); strings and numbers pass
through; arrays dispatch on the resolved type tag (`cubicBezier` / `shadow`
/ naive `String(val)`); objects dispatch on structural shape: a
`value`+`unit` pair is dimension-converted regardless of the type tag, then
an `offsetX` field means a single shadow, and any other object is
JSON-dumped.  Remaining primitives (booleans) hit the final `String(val)`. -/
def valueToCss (val : JsVal) (type : JsVal) : Except Unit (Option String) :=
  match val with
  | .vNull => .ok none
  | .vUndefined => .ok none
  | .vStr s => .ok (some s)
  | .vNum n => .ok (some n)
  | .vArr xs =>
    if typeIs type "cubicBezier" then .ok (some (cubicBezierToCss (.vArr xs)))
    else if typeIs type "shadow" then (shadowToCss (.vArr xs)).map (fun s => some s)
    else .ok (some (jsToString (.vArr xs)))
  | .vObj fs =>
    if !isUndefined (getProp (.vObj fs) "value") && !isUndefined (getProp (.vObj fs) "unit") then
      .ok (some (dimensionToCss (.vObj fs)))
    else if !isUndefined (getProp (.vObj fs) "offsetX") then
      (singleShadowToCss (.vObj fs)).map (fun s => some s)
    else
      .ok (some ((jsonStringify (.vObj fs)).getD "undefined"))
  | .vBool b => .ok (some (jsToString (.vBool b)))

/-- The JS test `key.startsWith('$')` used to skip DTCG metadata keys. -/
def startsWithDollar (key : String) : Bool :=
  match key.data with
  | [] => false
  | c :: _ => c == '$'

/-- The flattened key built per entry: `parentKey ? `${parentKey}-${key}` : key`
(a JS string is truthy iff non-empty). -/
def mkKey (parentKey key : String) : String :=
  if parentKey ≠ "" then parentKey ++ "-" ++ key else key

/-- The per-node effective type
`const localType = (value && value.$type) || parentType;`: the node's own
`$type` when the node and that field are both truthy, else the inherited
`parentType`. -/
def localTypeOf (value parentType : JsVal) : JsVal :=
  if jsTruthy value && jsTruthy (getProp value "$type") then getProp value "$type"
  else parentType

/-- JS `Object.entries`: the fields of an object, or index/element pairs
(with stringified indices) for an array; primitives have no entries. -/
def entriesOf : JsVal → List (String × JsVal)
  | .vObj fs => fs
  | .vArr xs => xs.enum.map (fun p => (toString p.1, p.2))
  | _ => []

mutual

/-- Structural size of a `JsVal`, used as the termination measure of the
flattening recursion. -/
def jsSize : JsVal → Nat
  | .vObj fs => 1 + fieldsSize fs
  | .vArr xs => 1 + elemsSize xs
  | _ => 1

def fieldsSize : List (String × JsVal) → Nat
  | [] => 0
  | (_, v) :: r => 1 + jsSize v + fieldsSize r

def elemsSize : List JsVal → Nat
  | [] => 0
  | v :: r => 1 + jsSize v + elemsSize r

end

theorem fieldsSize_map_enum (l : List (Nat × JsVal)) :
    fieldsSize (l.map (fun p => (toString p.1, p.2))) = elemsSize (l.map (·.2)) := by
  induction l with
  | nil => rfl
  | cons h t ih => simp [fieldsSize, elemsSize, ih]

theorem fieldsSize_entriesOf_lt (v : JsVal) : fieldsSize (entriesOf v) < jsSize v := by
  match v with
  | .vObj fs => simp [entriesOf, jsSize]
  | .vArr xs =>
    simp only [entriesOf, jsSize, fieldsSize_map_enum, List.enum_map_snd]
    omega
  | .vUndefined | .vNull | .vBool _ | .vNum _ | .vStr _ =>
    simp [entriesOf, fieldsSize, jsSize]

mutual

/-- Embedding of `flattenTokens(obj, parentKey, parentType)` from tokens-to-scss.js:
iterate the node's entries (the JS defaults are `parentKey = ''`,
`parentType = null`).  The result object is modelled as an association list
in insertion order. -/
def flattenTokens (obj : JsVal) (parentKey : String) (parentType : JsVal) :
    Except Unit (List (String × String)) :=
  flattenEntries (entriesOf obj) parentKey parentType
termination_by jsSize obj
decreasing_by exact fieldsSize_entriesOf_lt obj

/-- The `for (const [key, value] of Object.entries(obj))` loop body of
`flattenTokens`: keys starting with `$` are skipped; for a value of JS type
`object` (`null`, arrays and objects), a non-`null` extracted token value is
a leaf converted by `valueToCss` (emitted unless the conversion returned
`null`), and otherwise the value is a group recursed into with the extended
key and the local type; `extractValue(null)` throws; primitive values fall
through both branches and contribute nothing.  -/
def flattenEntries : List (String × JsVal) → String → JsVal →
    Except Unit (List (String × String))
  | [], _, _ => .ok []
  | (key, value) :: rest, pk, pt =>
    if startsWithDollar key then flattenEntries rest pk pt
    else
      let newKey := mkKey pk key
      let localType := localTypeOf value pt
      match value with
      | .vNull => .error ()
      | .vObj fs =>
        if isNull (extractValue (.vObj fs)) then
          match flattenTokens (.vObj fs) newKey localType, flattenEntries rest pk pt with
          | .error e, _ => .error e
          | .ok _, .error e => .error e
          | .ok sub, .ok r => .ok (sub ++ r)
        else
          match valueToCss (extractValue (.vObj fs)) localType with
          | .error e => .error e
          | .ok none => flattenEntries rest pk pt
          | .ok (some css) =>
            match flattenEntries rest pk pt with
            | .error e => .error e
            | .ok r => .ok ((newKey, css) :: r)
      | .vArr xs =>
        if isNull (extractValue (.vArr xs)) then
          match flattenTokens (.vArr xs) newKey localType, flattenEntries rest pk pt with
          | .error e, _ => .error e
          | .ok _, .error e => .error e
          | .ok sub, .ok r => .ok (sub ++ r)
        else
          match valueToCss (extractValue (.vArr xs)) localType with
          | .error e => .error e
          | .ok none => flattenEntries rest pk pt
          | .ok (some css) =>
            match flattenEntries rest pk pt with
            | .error e => .error e
            | .ok r => .ok ((newKey, css) :: r)
      | _ => flattenEntries rest pk pt
termination_by l _ _ => fieldsSize l
decreasing_by
  all_goals simp [fieldsSize, jsSize]
  all_goals omega

end

/-- The opening-brace character, written via its code point. -/
def lbrace : Char := Char.ofNat 123

/-- The closing-brace character, written via its code point. -/
def rbrace : Char := Char.ofNat 125

/-- Splits a character list at its first closing brace: `some (pre, post)`
when the list is `pre ++ rbrace :: post` with `pre` brace-close-free, `none`
when no closing brace occurs. -/
def splitBrace : List Char → Option (List Char × List Char)
  | [] => none
  | c :: rest =>
    if c == rbrace then some ([], rest)
    else
      match splitBrace rest with
      | some (pre, post) => some (c :: pre, post)
      | none => none

theorem splitBrace_post_length : ∀ {l pre post : List Char},
    splitBrace l = some (pre, post) → post.length < l.length := by
  intro l
  induction l with
  | nil => intro pre post h; simp [splitBrace] at h
  | cons c rest ih =>
    intro pre post h
    simp only [splitBrace] at h
    by_cases hc : (c == rbrace) = true
    · rw [if_pos hc] at h
      cases h
      simp
    · rw [if_neg hc] at h
      cases hr : splitBrace rest with
      | none => rw [hr] at h; cases h
      | some pp =>
        obtain ⟨pre1, post1⟩ := pp
        rw [hr] at h
        cases h
        have := ih hr
        simp only [List.length_cons]
        omega

/-- Action of `ref.replace(/\./g, '-')` on a single character. -/
def dashChar (c : Char) : Char := if c == '.' then '-' else c

/-- The replacement produced for one matched reference:
`var(--${PREFIX}-${ref.replace(/\./g, '-')})` with `PREFIX = 'atom'`. -/
def refVarChars (ref : List Char) : List Char :=
  "var(--atom-".data ++ ref.map dashChar ++ [')']

/-- Left-to-right global application of `/\{([^}]+)\}/g`: at an opening
brace whose first following closing brace delimits a non-empty reference,
the whole `\x7bref\x7d` span is replaced by `refVarChars ref` and scanning
resumes after it; everywhere else (no closing brace, or an empty `\x7b\x7d`
pair, or an ordinary character) one character is emitted unchanged and
scanning advances. -/
def replaceRefsAux : List Char → List Char
  | [] => []
  | c :: rest =>
    if c == lbrace then
      match h : splitBrace rest with
      | some (ref, post) =>
        if ref.isEmpty then c :: replaceRefsAux rest
        else refVarChars ref ++ replaceRefsAux post
      | none => c :: replaceRefsAux rest
    else c :: replaceRefsAux rest
termination_by l => l.length
decreasing_by
  · simp
  · have := splitBrace_post_length h
    simp
    omega
  · simp
  · simp

/-- Embedding of `resolveReferences(cssValue)` from tokens-to-scss.js: non-strings pass
through; strings get every `\x7bpath.to.token\x7d` reference rewritten to
`var(--atom-path-to-token)`. -/
def resolveReferences (cssValue : JsVal) : JsVal :=
  match cssValue with
  | .vStr s => .vStr (String.mk (replaceRefsAux s.data))
  | v => v

/-- A decomposition of a token string into literal text and brace-delimited
dotted-path references, used to state what the global regex replacement of
`resolveReferences` does to a string containing N references. -/
inductive RefPiece where
  | lit (s : String)
  | ref (path : String)
deriving Repr

/-- The source text of a piece: literal text verbatim, a reference wrapped
in braces. -/
def pieceChars : RefPiece → List Char
  | .lit s => s.data
  | .ref p => lbrace :: (p.data ++ [rbrace])

/-- The resolved text of a piece: literal text verbatim, a reference
rewritten to its `var(--atom-...)` form. -/
def resolvedChars : RefPiece → List Char
  | .lit s => s.data
  | .ref p => refVarChars p.data

/-- The whole source string of a piece decomposition. -/
def renderChars (ps : List RefPiece) : List Char := (ps.map pieceChars).flatten

/-- The fully resolved string of a piece decomposition. -/
def resolveAllChars (ps : List RefPiece) : List Char := (ps.map resolvedChars).flatten

/-- True when no brace character occurs in the list. -/
def braceFreeB (l : List Char) : Bool := l.all (fun c => !(c == lbrace) && !(c == rbrace))

/-- Well-formedness of a piece: literal text contains no braces; a
reference path is non-empty and contains no braces (the dotted paths of the
token files are of this shape). -/
def wfPieceB : RefPiece → Bool
  | .lit s => braceFreeB s.data
  | .ref p => !p.data.isEmpty && braceFreeB p.data

/-- The filesystem visible to build.js: a path-to-contents map for files and
the set of existing directories, both as lists.  Paths are strings relative
to the repository root (`path.join(__dirname, '..') `). -/
structure FileSys where
  files : List (String × String)
  dirs : List String
deriving Repr

/-- Embedding of `path.join` on one separator: the modelled paths contain no `.`/`..`
segments or duplicate separators, so joining is plain concatenation. -/
def pathJoin (a b : String) : String := a ++ "/" ++ b

/-- Embedding of `fs.existsSync(p)`: true when a file or directory exists at `p`. -/
def existsSync (fs : FileSys) (p : String) : Bool :=
  (fs.files.lookup p).isSome || fs.dirs.contains p

/-- Embedding of `fs.readFileSync(p, 'utf8')` as a lookup; `none` when no file is at `p`
(where the real call would throw). -/
def readFile (fs : FileSys) (p : String) : Option String :=
  fs.files.lookup p

/-- Embedding of `fs.writeFileSync(p, c)`: create or overwrite the file at `p`. -/
def writeFile (fs : FileSys) (p c : String) : FileSys :=
  { fs with files := (p, c) :: fs.files.filter (fun e => e.1 != p) }

/-- Embedding of `path.dirname(p)`: everything before the last separator, `"."` when
there is none. -/
def dirname (p : String) : String :=
  let segs := p.splitOn "/"
  if segs.length ≤ 1 then "." else String.intercalate "/" segs.dropLast

/-- Embedding of `fs.mkdirSync(d, recursive)` with the recursive flag: record `d` and every ancestor
directory. -/
def mkdirRec (fs : FileSys) (d : String) : FileSys :=
  let segs := d.splitOn "/"
  let ancestors := (List.range segs.length).map
    (fun i => String.intercalate "/" (segs.take (i + 1)))
  { fs with dirs := ancestors.foldl (fun acc x => if acc.contains x then acc else acc ++ [x]) fs.dirs }

/-- One entry of the static module manifest of build.js (source name: `mod`). -/
structure ModEntry where
  entry : String
  output : String
deriving Repr, DecidableEq

/-- The `modules` manifest of build.js, verbatim. -/
def modules : List ModEntry := [
  ⟨"tokens/_primitive.scss", "tokens/primitives.css"⟩,
  ⟨"tokens/_semantic.scss", "tokens/semantic.css"⟩,
  ⟨"foundations/typography/_index.scss", "foundations/typography.css"⟩,
  ⟨"foundations/colors/_index.scss", "foundations/colors.css"⟩,
  ⟨"foundations/spacing/_index.scss", "foundations/spacing.css"⟩,
  ⟨"foundations/layout/_index.scss", "foundations/layout.css"⟩,
  ⟨"foundations/elevation/_index.scss", "foundations/elevation.css"⟩,
  ⟨"foundations/borders/_index.scss", "foundations/borders.css"⟩,
  ⟨"foundations/motion/_index.scss", "foundations/motion.css"⟩,
  ⟨"components/button/_index.scss", "components/button.css"⟩,
  ⟨"components/card/_index.scss", "components/card.css"⟩,
  ⟨"components/input/_index.scss", "components/input.css"⟩,
  ⟨"components/modal/_index.scss", "components/modal.css"⟩,
  ⟨"components/badge/_index.scss", "components/badge.css"⟩,
  ⟨"components/radio/_index.scss", "components/radio.css"⟩,
  ⟨"components/toggle/_index.scss", "components/toggle.css"⟩,
  ⟨"components/tag/_index.scss", "components/tag.css"⟩,
  ⟨"extensions/inbox/_index.scss", "extensions/inbox.css"⟩,
  ⟨"extensions/ai/_index.scss", "extensions/ai.css"⟩,
  ⟨"extensions/notifications/_index.scss", "extensions/notifications.css"⟩,
  ⟨"extensions/indicators/_index.scss", "extensions/indicators.css"⟩,
  ⟨"themes/_theme-dark.scss", "themes/dark.css"⟩,
  ⟨"utilities/_index.scss", "utilities.css"⟩]

/-- The `for (const mod of modules)` batch of build.js.  `compile` is the
external `sass` subprocess, returning a success flag and the filesystem it
leaves behind.  Per entry: a missing source is skipped (`skipped` counter
incremented, nothing else done); otherwise the output directory is created
recursively and the compiler invoked, incrementing `built` exactly on
success; a failure is logged and the batch continues. -/
def runMods (compile : String → String → FileSys → Bool × FileSys) :
    List ModEntry → FileSys → Nat → Nat → FileSys × Nat × Nat
  | [], fs, built, skipped => (fs, built, skipped)
  | m :: rest, fs, built, skipped =>
    let entryPath := pathJoin "src" m.entry
    let outputPath := pathJoin "dist" m.output
    if existsSync fs entryPath then
      let fs1 := mkdirRec fs (dirname outputPath)
      match compile entryPath outputPath fs1 with
      | (true, fs2) => runMods compile rest fs2 (built + 1) skipped
      | (false, fs2) => runMods compile rest fs2 built skipped
    else
      runMods compile rest fs built (skipped + 1)

/-- The path `path.join(DIST, 'tokens', 'primitives.css')`. -/
def primPath : String := pathJoin (pathJoin "dist" "tokens") "primitives.css"

/-- The path `path.join(DIST, 'tokens', 'semantic.css')`. -/
def semPath : String := pathJoin (pathJoin "dist" "tokens") "semantic.css"

/-- The path `path.join(DIST, 'tokens', 'all-tokens.css')`. -/
def allTokensPath : String := pathJoin (pathJoin "dist" "tokens") "all-tokens.css"

/-- The combined-token step after the batch: when both token outputs exist,
write their concatenation, separated by exactly one newline, to
`all-tokens.css`; otherwise do nothing.  The `.error` arm is the
`readFileSync` throw when `existsSync` was satisfied by a directory. -/
def combineTokens (fs : FileSys) : Except Unit FileSys :=
  if existsSync fs primPath && existsSync fs semPath then
    match readFile fs primPath, readFile fs semPath with
    | some p, some s => .ok (writeFile fs allTokensPath (p ++ "\n" ++ s))
    | _, _ => .error ()
  else .ok fs

theorem jsTruthy_ne_undef {v : JsVal} (h : jsTruthy v = true) : isUndefined v = false := by
  cases v <;> simp_all [jsTruthy, isUndefined]

/-- C1 (counterexample): a dimension object whose `unit` is the empty
string is not rendered as the concatenation `${value}${unit}` (which would
be `"8"`): because `""` is falsy, `dimensionToCss` falls back to
`String(dim)` and both it and `valueToCss` produce `"[object Object]"`. -/
theorem c1_counterexample :
    dimensionToCss (.vObj [("value", .vNum "8"), ("unit", .vStr "")]) = "[object Object]" ∧
    valueToCss (.vObj [("value", .vNum "8"), ("unit", .vStr "")]) (.vStr "dimension") =
      .ok (some "[object Object]") ∧
    ("[object Object]" : String) ≠ "8" :=
  ⟨rfl, rfl, by decide⟩

/-- C1 (amended): for every object carrying a defined `value` field and a
truthy `unit` field, `dimensionToCss` returns exactly the concatenation
`${value}${unit}`, and `valueToCss` reaches that conversion for any type
tag.  (The amendment restricts the original claim to truthy units: a falsy
unit such as `""` instead falls back to `String(dim)`.) -/
theorem c1_dimension_concat :
    ∀ (fs : List (String × JsVal)) (ty : JsVal),
      isUndefined (getProp (.vObj fs) "value") = false →
      jsTruthy (getProp (.vObj fs) "unit") = true →
      dimensionToCss (.vObj fs) =
          jsToString (getProp (.vObj fs) "value") ++ jsToString (getProp (.vObj fs) "unit") ∧
        valueToCss (.vObj fs) ty =
          .ok (some (jsToString (getProp (.vObj fs) "value") ++ jsToString (getProp (.vObj fs) "unit"))) := by
  intro fs ty hv hu
  have hu' : isUndefined (getProp (.vObj fs) "unit") = false := jsTruthy_ne_undef hu
  have hd : dimensionToCss (.vObj fs) =
      jsToString (getProp (.vObj fs) "value") ++ jsToString (getProp (.vObj fs) "unit") := by
    simp [dimensionToCss, hv, hu]
  refine ⟨hd, ?_⟩
  simp only [valueToCss, hv, hu', Bool.not_false, Bool.and_self, if_pos, hd]

theorem c1_dimension_concat_witness :
    dimensionToCss (.vObj [("value", .vNum "8"), ("unit", .vStr "px")]) = "8px" ∧
    valueToCss (.vObj [("value", .vNum "8"), ("unit", .vStr "px")]) (.vStr "dimension") =
      .ok (some "8px") := by
  have h := c1_dimension_concat [("value", .vNum "8"), ("unit", .vStr "px")] (.vStr "dimension")
    rfl rfl
  exact ⟨h.1.trans (by rfl), h.2.trans (by rfl)⟩

/-- C2: under the resolved type `cubicBezier`, an array of exactly four
numbers converts to `cubic-bezier(n1, n2, n3, n4)` in original order, and
an array of any other length falls back to the naive `String(arr)`
stringification (elements joined with `","`) rather than raising an
error. -/
theorem c2_cubic_bezier :
    (∀ a b c d : String,
      valueToCss (.vArr [.vNum a, .vNum b, .vNum c, .vNum d]) (.vStr "cubicBezier") =
        .ok (some ("cubic-bezier(" ++ a ++ ", " ++ b ++ ", " ++ c ++ ", " ++ d ++ ")"))) ∧
    (∀ xs : List JsVal, xs.length ≠ 4 →
      valueToCss (.vArr xs) (.vStr "cubicBezier") = .ok (some (jsToString (.vArr xs)))) := by
  refine ⟨fun a b c d => rfl, fun xs hxs => ?_⟩
  simp [valueToCss, typeIs, cubicBezierToCss, hxs]

theorem c2_cubic_bezier_witness :
    valueToCss (.vArr [.vNum "0.4", .vNum "0", .vNum "1"]) (.vStr "cubicBezier") =
      .ok (some "0.4,0,1") ∧
    valueToCss (.vArr [.vNum "0.4", .vNum "0", .vNum "1", .vNum "1"]) (.vStr "cubicBezier") =
      .ok (some "cubic-bezier(0.4, 0, 1, 1)") := by
  exact ⟨(c2_cubic_bezier.2 [.vNum "0.4", .vNum "0", .vNum "1"] (by decide)).trans (by rfl),
    (c2_cubic_bezier.1 "0.4" "0" "1" "1").trans (by rfl)⟩

/-- C4: any object value exposing both a `value` and a `unit` field is
converted by the dimension/duration rule whatever the resolved type tag is:
`valueToCss` checks the structural shape of the object before consulting
the type. -/
theorem c4_shape_before_type :
    ∀ (fs : List (String × JsVal)) (ty : JsVal),
      isUndefined (getProp (.vObj fs) "value") = false →
      isUndefined (getProp (.vObj fs) "unit") = false →
      valueToCss (.vObj fs) ty = .ok (some (dimensionToCss (.vObj fs))) := by
  intro fs ty hv hu
  simp [valueToCss, hv, hu]

theorem c4_shape_before_type_witness :
    valueToCss (.vObj [("value", .vNum "4"), ("unit", .vStr "rem")]) (.vStr "shadow") =
      .ok (some "4rem") := by
  exact (c4_shape_before_type [("value", .vNum "4"), ("unit", .vStr "rem")] (.vStr "shadow")
    rfl rfl).trans (by rfl)

/-- C6 (counterexample): a value of unrecognized shape does not convert to
`null` and is not omitted: a bare boolean leaf converts to `"true"` and is
emitted by flattening. -/
theorem c6_counterexample :
    valueToCss (.vBool true) .vNull = .ok (some "true") ∧
    flattenTokens (.vObj [("flag", .vObj [("$value", .vBool true)])]) "" .vNull =
      .ok [("flag", "true")] := by
  constructor
  · rfl
  · simp +decide [flattenTokens, flattenEntries, entriesOf, startsWithDollar, mkKey,
      localTypeOf, extractValue, getProp, isNull, isUndefined, jsTruthy, valueToCss, jsToString,
      List.lookup]

/-- C6 (amended): the flattener's guard does omit any leaf whose conversion
returns `null`, but conversion returns `null` only for `null`/`undefined`
raw values — never for an unrecognized shape, which is stringified and
emitted — so the omission can never fire on an extracted (non-`null`) token
value. -/
theorem c6_null_conversion_iff :
    ∀ (v ty : JsVal), valueToCss v ty = .ok none ↔ (v = .vNull ∨ v = .vUndefined) := by
  intro v ty
  cases v with
  | vNull => simp [valueToCss]
  | vUndefined => simp [valueToCss]
  | vBool b => simp [valueToCss]
  | vNum n => simp [valueToCss]
  | vStr s => simp [valueToCss]
  | vArr xs =>
    simp only [valueToCss]
    by_cases h1 : typeIs ty "cubicBezier"
    · simp [h1]
    · by_cases h2 : typeIs ty "shadow"
      · cases hs : shadowToCss (.vArr xs) <;> simp [h1, h2, hs, Except.map]
      · simp [h1, h2]
  | vObj fs =>
    simp only [valueToCss]
    by_cases h1 : (!isUndefined (getProp (.vObj fs) "value") && !isUndefined (getProp (.vObj fs) "unit")) = true
    · simp [h1]
    · by_cases h2 : (!isUndefined (getProp (.vObj fs) "offsetX")) = true
      · cases hs : singleShadowToCss (.vObj fs) <;> simp [h1, h2, hs, Except.map]
      · simp [h1, h2]

theorem flattenEntries_skip_congr {k : String} {v : JsVal}
    (hstep : ∀ rest pk pt, flattenEntries ((k, v) :: rest) pk pt = flattenEntries rest pk pt) :
    ∀ (pre post : List (String × JsVal)) (pk : String) (pt : JsVal),
      flattenEntries (pre ++ (k, v) :: post) pk pt = flattenEntries (pre ++ post) pk pt := by
  intro pre
  induction pre with
  | nil => intro post pk pt; exact hstep post pk pt
  | cons hd tl ih =>
    intro post pk pt
    obtain ⟨k1, v1⟩ := hd
    simp only [List.cons_append, flattenEntries]
    simp only [ih]

theorem flattenEntries_skip_dollar {k : String} (v : JsVal)
    (hk : startsWithDollar k = true) :
    ∀ rest pk pt, flattenEntries ((k, v) :: rest) pk pt = flattenEntries rest pk pt := by
  intro rest pk pt
  simp [flattenEntries, hk]

theorem flattenEntries_skip_str (k s : String) :
    ∀ rest pk pt, flattenEntries ((k, .vStr s) :: rest) pk pt = flattenEntries rest pk pt := by
  intro rest pk pt
  simp only [flattenEntries]
  split <;> rfl

theorem flattenEntries_skip_num (k n : String) :
    ∀ rest pk pt, flattenEntries ((k, .vNum n) :: rest) pk pt = flattenEntries rest pk pt := by
  intro rest pk pt
  simp only [flattenEntries]
  split <;> rfl

theorem flattenEntries_skip_bool (k : String) (b : Bool) :
    ∀ rest pk pt, flattenEntries ((k, .vBool b) :: rest) pk pt = flattenEntries rest pk pt := by
  intro rest pk pt
  simp only [flattenEntries]
  split <;> rfl

/-- C7: an entry whose key begins with the `$` metadata sigil is skipped
entirely by flattening, wherever it occurs among its siblings: it is
neither emitted nor recursed into (the result is as if the entry, with its
whole subtree, were absent), and the remaining entries are processed
unchanged. -/
theorem c7_dollar_keys_skipped :
    ∀ (pre : List (String × JsVal)) (k : String) (v : JsVal) (post : List (String × JsVal))
      (pk : String) (pt : JsVal), startsWithDollar k = true →
      flattenEntries (pre ++ (k, v) :: post) pk pt = flattenEntries (pre ++ post) pk pt := by
  intro pre k v post pk pt hk
  exact flattenEntries_skip_congr (flattenEntries_skip_dollar v hk) pre post pk pt

theorem c7_dollar_keys_skipped_witness :
    flattenEntries [("a", .vObj [("value", .vNum "1")]), ("$description", .vStr "meta"),
        ("b", .vObj [("value", .vNum "2")])] "" .vNull =
      flattenEntries [("a", .vObj [("value", .vNum "1")]), ("b", .vObj [("value", .vNum "2")])]
        "" .vNull :=
  c7_dollar_keys_skipped [("a", .vObj [("value", .vNum "1")])] "$description" (.vStr "meta")
    [("b", .vObj [("value", .vNum "2")])] "" .vNull (by decide)

/-- C10: an entry whose value is a bare string, number or boolean (not an
object) contributes nothing to flattening, wherever it occurs among its
siblings: leaf extraction only applies to object values, so such entries
are silently dropped and not recursed into. -/
theorem c10_primitive_leaves_dropped :
    ∀ (pre : List (String × JsVal)) (k : String) (post : List (String × JsVal))
      (pk : String) (pt : JsVal),
      (∀ s : String, flattenEntries (pre ++ (k, .vStr s) :: post) pk pt =
        flattenEntries (pre ++ post) pk pt) ∧
      (∀ n : String, flattenEntries (pre ++ (k, .vNum n) :: post) pk pt =
        flattenEntries (pre ++ post) pk pt) ∧
      (∀ b : Bool, flattenEntries (pre ++ (k, .vBool b) :: post) pk pt =
        flattenEntries (pre ++ post) pk pt) := by
  intro pre k post pk pt
  refine ⟨fun s => ?_, fun n => ?_, fun b => ?_⟩
  · exact flattenEntries_skip_congr (flattenEntries_skip_str k s) pre post pk pt
  · exact flattenEntries_skip_congr (flattenEntries_skip_num k n) pre post pk pt
  · exact flattenEntries_skip_congr (flattenEntries_skip_bool k b) pre post pk pt

/-- C5 (counterexample): a node whose own declared `$type` is the (falsy)
empty string does not use its declared type for conversion: its 4-element
`$value` array is converted under the inherited `cubicBezier` type of the
parent group, whereas conversion under the declared type `""` would have
produced the naive stringification `"1,2,3,4"`. -/
theorem c5_counterexample :
    getProp (.vObj [("$type", .vStr ""),
        ("$value", .vArr [.vNum "1", .vNum "2", .vNum "3", .vNum "4"])]) "$type" = .vStr "" ∧
    valueToCss (.vArr [.vNum "1", .vNum "2", .vNum "3", .vNum "4"]) (.vStr "") =
      .ok (some "1,2,3,4") ∧
    flattenTokens (.vObj [("outer", .vObj [("$type", .vStr "cubicBezier"),
        ("inner", .vObj [("$type", .vStr ""),
          ("$value", .vArr [.vNum "1", .vNum "2", .vNum "3", .vNum "4"])])])]) "" .vNull =
      .ok [("outer-inner", "cubic-bezier(1, 2, 3, 4)")] ∧
    ("cubic-bezier(1, 2, 3, 4)" : String) ≠ "1,2,3,4" := by
  refine ⟨rfl, rfl, ?_, by decide⟩
  simp +decide [flattenTokens, flattenEntries, entriesOf, startsWithDollar, mkKey, localTypeOf,
    extractValue, getProp, isNull, isUndefined, jsTruthy, valueToCss, jsToString, typeIs,
    cubicBezierToCss, jsElems, List.lookup]

/-- C5 (amended): the effective type used for a node is its own declared
`$type` when that declaration is truthy (a non-empty string), otherwise the
type inherited from the parent (a falsy declaration such as `""` is ignored
in favor of the inherited type); the local type is passed downward to the
node's own group recursion and leaf conversion only, while siblings keep
the untouched parent type. -/
theorem c5_type_resolution :
    (∀ (fs : List (String × JsVal)) (pt : JsVal),
      jsTruthy (getProp (.vObj fs) "$type") = true →
      localTypeOf (.vObj fs) pt = getProp (.vObj fs) "$type") ∧
    (∀ (v pt : JsVal), jsTruthy (getProp v "$type") = false → localTypeOf v pt = pt) ∧
    (∀ (k : String) (fs rest : List (String × JsVal)) (pk : String) (pt : JsVal),
      startsWithDollar k = false → isNull (extractValue (.vObj fs)) = true →
      flattenEntries ((k, .vObj fs) :: rest) pk pt =
        match flattenTokens (.vObj fs) (mkKey pk k) (localTypeOf (.vObj fs) pt),
            flattenEntries rest pk pt with
        | .error e, _ => .error e
        | .ok _, .error e => .error e
        | .ok sub, .ok r => .ok (sub ++ r)) ∧
    (∀ (k : String) (fs rest : List (String × JsVal)) (pk : String) (pt : JsVal) (css : String),
      startsWithDollar k = false → isNull (extractValue (.vObj fs)) = false →
      valueToCss (extractValue (.vObj fs)) (localTypeOf (.vObj fs) pt) = .ok (some css) →
      flattenEntries ((k, .vObj fs) :: rest) pk pt =
        (flattenEntries rest pk pt).map (fun r => (mkKey pk k, css) :: r)) := by
  refine ⟨?_, ?_, ?_, ?_⟩
  · intro fs pt h
    unfold localTypeOf
    rw [show jsTruthy (JsVal.vObj fs) = true from rfl, h]
    rfl
  · intro v pt h
    simp [localTypeOf, h]
  · intro k fs rest pk pt h1 h2
    simp only [flattenEntries, h1, Bool.false_eq_true, if_false, h2, if_true]
  · intro k fs rest pk pt css h1 h2 h3
    simp only [flattenEntries, h1, Bool.false_eq_true, if_false, h2, if_true, h3]
    cases hr : flattenEntries rest pk pt <;> simp [hr, Except.map]

theorem c5_type_resolution_witness :
    localTypeOf (.vObj [("$type", .vStr "dimension")]) .vNull = .vStr "dimension" ∧
    localTypeOf (.vStr "plain") (.vStr "color") = .vStr "color" ∧
    flattenEntries [("sm", .vObj [("$value", .vObj [("value", .vNum "8"), ("unit", .vStr "px")])])]
      "space" (.vStr "dimension") = .ok [("space-sm", "8px")] := by
  refine ⟨?_, ?_, ?_⟩
  · exact (c5_type_resolution.1 [("$type", .vStr "dimension")] .vNull rfl).trans (by rfl)
  · exact c5_type_resolution.2.1 (.vStr "plain") (.vStr "color") rfl
  · have h := c5_type_resolution.2.2.2 "sm"
      [("$value", .vObj [("value", .vNum "8"), ("unit", .vStr "px")])] [] "space"
      (.vStr "dimension") "8px" rfl rfl (by rfl)
    rw [h]
    simp +decide [flattenEntries, Except.map, mkKey]

theorem braceFreeB_append (a b : List Char) :
    braceFreeB (a ++ b) = (braceFreeB a && braceFreeB b) := by
  simp [braceFreeB, List.all_append]

theorem not_mem_rbrace_of_braceFree {r : List Char} (h : braceFreeB r = true) : rbrace ∉ r := by
  intro hm
  have := List.all_eq_true.mp h rbrace hm
  simp at this

theorem splitBrace_of_append {pre : List Char} (post : List Char) (h : rbrace ∉ pre) :
    splitBrace (pre ++ rbrace :: post) = some (pre, post) := by
  induction pre with
  | nil => simp [splitBrace]
  | cons c t ih =>
    simp only [List.mem_cons, not_or] at h
    have hc : (c == rbrace) = false := beq_eq_false_iff_ne.mpr (fun e => h.1 e.symm)
    simp only [List.cons_append, splitBrace, hc, Bool.false_eq_true, if_false, List.append_eq]
    rw [ih (fun m => h.2 m)]

theorem replaceRefsAux_lit {l : List Char} (rest : List Char) (h : braceFreeB l = true) :
    replaceRefsAux (l ++ rest) = l ++ replaceRefsAux rest := by
  induction l with
  | nil => rfl
  | cons c t ih =>
    simp only [braceFreeB, List.all_cons, Bool.and_eq_true] at h
    have hc : (c == lbrace) = false := by
      rcases h with ⟨⟨h1, _⟩, _⟩
      simpa using h1
    have ht : braceFreeB t = true := by
      rcases h with ⟨_, h2⟩
      simpa [braceFreeB] using h2
    simp only [List.cons_append, replaceRefsAux, hc, Bool.false_eq_true, if_false]
    rw [ih ht]

theorem replaceRefsAux_ref {r : List Char} (post : List Char)
    (hne : r.isEmpty = false) (hfree : braceFreeB r = true) :
    replaceRefsAux (lbrace :: (r ++ rbrace :: post)) =
      refVarChars r ++ replaceRefsAux post := by
  have hr : rbrace ∉ r := not_mem_rbrace_of_braceFree hfree
  simp only [replaceRefsAux]
  rw [if_pos (by rfl)]
  split
  · rename_i ref' post' heq
    rw [splitBrace_of_append post hr] at heq
    injection heq with heq2
    injection heq2 with e1 e2
    subst e1
    subst e2
    simp [hne]
  · rename_i heq
    rw [splitBrace_of_append post hr] at heq
    cases heq

theorem wfPiece_lit {s : String} (h : wfPieceB (.lit s) = true) : braceFreeB s.data = true := h

theorem wfPiece_ref {p : String} (h : wfPieceB (.ref p) = true) :
    p.data.isEmpty = false ∧ braceFreeB p.data = true := by
  simp only [wfPieceB, Bool.and_eq_true, Bool.not_eq_true'] at h
  exact h

theorem braceFreeB_map_dash {r : List Char} (h : braceFreeB r = true) :
    braceFreeB (r.map dashChar) = true := by
  simp only [braceFreeB, List.all_map] at *
  refine List.all_eq_true.mpr (fun c hc => ?_)
  have := List.all_eq_true.mp h c hc
  simp only [Function.comp_apply, dashChar]
  by_cases hdot : (c == '.') = true <;> simp [hdot, this]
  · decide

theorem braceFreeB_refVar {r : List Char} (h : braceFreeB r = true) :
    braceFreeB (refVarChars r) = true := by
  simp only [refVarChars, braceFreeB_append, Bool.and_eq_true]
  refine ⟨⟨by decide, braceFreeB_map_dash h⟩, by decide⟩

theorem replaceRefsAux_render : ∀ ps : List RefPiece, ps.all wfPieceB = true →
    replaceRefsAux (renderChars ps) = resolveAllChars ps := by
  intro ps h
  induction ps with
  | nil => simp [renderChars, resolveAllChars, replaceRefsAux]
  | cons p t ih =>
    simp only [List.all_cons, Bool.and_eq_true] at h
    obtain ⟨hp, ht⟩ := h
    have ih2 := ih ht
    simp only [renderChars, resolveAllChars] at ih2 ⊢
    cases p with
    | lit s =>
      simp only [List.map_cons, List.flatten_cons, pieceChars, resolvedChars]
      rw [replaceRefsAux_lit _ (wfPiece_lit hp), ih2]
    | ref pth =>
      obtain ⟨hne, hfree⟩ := wfPiece_ref hp
      simp only [List.map_cons, List.flatten_cons, pieceChars, resolvedChars,
        List.cons_append, List.append_assoc, List.singleton_append]
      rw [replaceRefsAux_ref _ hne hfree, List.nil_append, ih2]

theorem braceFree_resolveAll : ∀ ps : List RefPiece, ps.all wfPieceB = true →
    braceFreeB (resolveAllChars ps) = true := by
  intro ps h
  induction ps with
  | nil => rfl
  | cons p t ih =>
    simp only [List.all_cons, Bool.and_eq_true] at h
    obtain ⟨hp, ht⟩ := h
    simp only [resolveAllChars, List.map_cons, List.flatten_cons, braceFreeB_append,
      Bool.and_eq_true]
    refine ⟨?_, ih ht⟩
    cases p with
    | lit s => exact wfPiece_lit hp
    | ref pth => exact braceFreeB_refVar (wfPiece_ref hp).2

/-- C3: for every string decomposed into literal text and brace-delimited
dotted-path references (all reference paths non-empty and brace-free, the
literal text brace-free), `resolveReferences` rewrites every reference
occurrence independently to `var(--atom-<path with dots replaced by
dashes>)`, leaves the literal text untouched, and the result contains no
brace character. -/
theorem c3_all_references_resolved :
    ∀ ps : List RefPiece, ps.all wfPieceB = true →
      resolveReferences (.vStr (String.mk (renderChars ps))) =
          .vStr (String.mk (resolveAllChars ps)) ∧
        braceFreeB (resolveAllChars ps) = true := by
  intro ps h
  refine ⟨?_, braceFree_resolveAll ps h⟩
  show JsVal.vStr (String.mk (replaceRefsAux (String.mk (renderChars ps)).data)) = _
  rw [show (String.mk (renderChars ps)).data = renderChars ps from rfl,
    replaceRefsAux_render ps h]

theorem c3_all_references_resolved_witness :
    resolveReferences (.vStr "\x7bcolor.zinc.900\x7d") =
        .vStr "var(--atom-color-zinc-900)" ∧
      resolveReferences (.vStr "0 1px \x7bshadow.sm\x7d, \x7bshadow.lg\x7d solid") =
        .vStr "0 1px var(--atom-shadow-sm), var(--atom-shadow-lg) solid" := by
  constructor
  · have h := (c3_all_references_resolved [RefPiece.ref "color.zinc.900"] (by decide)).1
    have e1 : String.mk (renderChars [RefPiece.ref "color.zinc.900"]) =
        "\x7bcolor.zinc.900\x7d" := by decide
    have e2 : String.mk (resolveAllChars [RefPiece.ref "color.zinc.900"]) =
        "var(--atom-color-zinc-900)" := by decide
    rw [← e1, ← e2]
    exact h
  · have h := (c3_all_references_resolved [RefPiece.lit "0 1px ", RefPiece.ref "shadow.sm",
      RefPiece.lit ", ", RefPiece.ref "shadow.lg", RefPiece.lit " solid"] (by decide)).1
    have e1 : String.mk (renderChars [RefPiece.lit "0 1px ", RefPiece.ref "shadow.sm",
        RefPiece.lit ", ", RefPiece.ref "shadow.lg", RefPiece.lit " solid"]) =
        "0 1px \x7bshadow.sm\x7d, \x7bshadow.lg\x7d solid" := by decide
    have e2 : String.mk (resolveAllChars [RefPiece.lit "0 1px ", RefPiece.ref "shadow.sm",
        RefPiece.lit ", ", RefPiece.ref "shadow.lg", RefPiece.lit " solid"]) =
        "0 1px var(--atom-shadow-sm), var(--atom-shadow-lg) solid" := by decide
    rw [← e1, ← e2]
    exact h

/-- C8: a manifest entry whose source file does not exist is skipped by the
module batch: the step equation holds for every `compile` function (the
external compiler is never consulted), the filesystem is passed on
untouched (so no output file and no output directory is created for the
entry), the built count is unchanged, the skipped count is incremented, and
the remaining entries are still processed. -/
theorem c8_missing_source_skipped :
    ∀ (m : ModEntry), m ∈ modules →
      ∀ (compile : String → String → FileSys → Bool × FileSys)
        (rest : List ModEntry) (fs : FileSys) (built skipped : Nat),
        existsSync fs (pathJoin "src" m.entry) = false →
        runMods compile (m :: rest) fs built skipped =
          runMods compile rest fs built (skipped + 1) := by
  intro m _ compile rest fs built skipped h
  simp [runMods, h]

theorem c8_missing_source_skipped_witness :
    runMods (fun _ _ fs => (true, fs)) [⟨"tokens/_primitive.scss", "tokens/primitives.css"⟩]
      ⟨[], []⟩ 0 0 = (⟨[], []⟩, 0, 1) := by
  have h := c8_missing_source_skipped ⟨"tokens/_primitive.scss", "tokens/primitives.css"⟩
    (by decide) (fun _ _ fs => (true, fs)) [] ⟨[], []⟩ 0 0 (by decide)
  rw [h]
  rfl

theorem lookup_filter_ne (l : List (String × String)) (p q : String)
    (h : (q == p) = false) :
    List.lookup q (l.filter (fun e => e.1 != p)) = List.lookup q l := by
  induction l with
  | nil => rfl
  | cons e t ih =>
    obtain ⟨a, b⟩ := e
    by_cases ha : (a == p) = true
    · have hdrop : ((a, b).1 != p) = false := by simp [bne, ha]
      have hqa : (q == a) = false := by
        have : a = p := by simpa using ha
        subst this
        exact h
      simp only [List.filter_cons, hdrop, Bool.false_eq_true, if_false, List.lookup, hqa, ih]
    · have hkeep : ((a, b).1 != p) = true := by simp [bne]; simpa using ha
      simp only [List.filter_cons, hkeep, if_true, List.lookup, ih]

theorem readFile_writeFile_self (fs : FileSys) (p c : String) :
    readFile (writeFile fs p c) p = some c := by
  simp [readFile, writeFile, List.lookup]

theorem readFile_writeFile_other {fs : FileSys} {p q : String} (c : String) (h : q ≠ p) :
    readFile (writeFile fs p c) q = readFile fs q := by
  have hq : (q == p) = false := beq_eq_false_iff_ne.mpr h
  simp only [readFile, writeFile, List.lookup, hq]
  exact lookup_filter_ne fs.files p q hq

/-- C9: after the module batch, `tokens/all-tokens.css` is written if and
only if both `tokens/primitives.css` and `tokens/semantic.css` exist in the
output tree: when both exist with contents `p` and `s`, the step produces
exactly the filesystem with `p ++ "\n" ++ s` (one separating newline, no
other modification) at the combined path, every other path reading back
unchanged; when either is missing the filesystem is returned untouched. -/
theorem c9_combined_tokens :
    (∀ (fs : FileSys) (p s : String),
      readFile fs primPath = some p → readFile fs semPath = some s →
      combineTokens fs = .ok (writeFile fs allTokensPath (p ++ "\n" ++ s)) ∧
        readFile (writeFile fs allTokensPath (p ++ "\n" ++ s)) allTokensPath =
          some (p ++ "\n" ++ s) ∧
        (∀ q, q ≠ allTokensPath →
          readFile (writeFile fs allTokensPath (p ++ "\n" ++ s)) q = readFile fs q)) ∧
    (∀ fs : FileSys, existsSync fs primPath = false ∨ existsSync fs semPath = false →
      combineTokens fs = .ok fs) := by
  constructor
  · intro fs p s hp hs
    have hep : existsSync fs primPath = true := by
      simp only [existsSync, readFile] at *
      simp [hp]
    have hes : existsSync fs semPath = true := by
      simp only [existsSync, readFile] at *
      simp [hs]
    exact ⟨by simp [combineTokens, hep, hes, hp, hs],
      readFile_writeFile_self fs allTokensPath _,
      fun q hq => readFile_writeFile_other _ hq⟩
  · intro fs h
    have hc : (existsSync fs primPath && existsSync fs semPath) = false := by
      rcases h with h | h <;> simp [h]
    simp [combineTokens, hc]

theorem c9_combined_tokens_witness :
    combineTokens ⟨[(primPath, "P"), (semPath, "S")], []⟩ =
      .ok (writeFile ⟨[(primPath, "P"), (semPath, "S")], []⟩ allTokensPath "P\nS") ∧
    combineTokens ⟨[], []⟩ = .ok ⟨[], []⟩ := by
  constructor
  · exact (c9_combined_tokens.1 ⟨[(primPath, "P"), (semPath, "S")], []⟩ "P" "S" rfl rfl).1
  · exact c9_combined_tokens.2 ⟨[], []⟩ (Or.inl rfl)

theorem c6_null_conversion_iff_witness :
    valueToCss .vNull .vNull = .ok none ∧
    valueToCss (.vBool false) .vNull ≠ .ok none := by
  refine ⟨(c6_null_conversion_iff .vNull .vNull).mpr (Or.inl rfl), fun hc => ?_⟩
  rcases (c6_null_conversion_iff (.vBool false) .vNull).mp hc with h | h <;> cases h
